import Mathlib

/-!
Verification development for the web3auth → Algorand key adapter of the
unified-algorand-wallet repository. The repository functions embedded here are
`getAlgorandAccount`, `createAlgorandSigner`, `isValidAlgorandAddress` and
`getPublicKeyFromSecretKey` from `src/web3auth/algorandAdapter.ts`, and
`verifyWeb3AuthSignature` from `src/web3auth/web3authIntegration.ts`.
The `algosdk` ledger primitive library and the Node `Buffer` hex codec are
external collaborators, modelled at their documented boundary.
-/

deriving instance DecidableEq for Except

namespace UnifiedAlgorandWallet

/-- Byte strings are lists of naturals; every byte produced by the pipeline is below 256. -/
abbrev Bytes := List Nat

/-- Value of a single hex digit character, case insensitive; `none` for a non-hex character. -/
def hexVal (c : Char) : Option Nat :=
  if 48 ≤ c.toNat ∧ c.toNat ≤ 57 then some (c.toNat - 48)
  else if 97 ≤ c.toNat ∧ c.toNat ≤ 102 then some (c.toNat - 97 + 10)
  else if 65 ≤ c.toNat ∧ c.toNat ≤ 70 then some (c.toNat - 65 + 10)
  else none

/-- Modelled from the spec: the Node `Buffer.from(s, hex)` codec used at
`algorandAdapter.ts:58` (external runtime, not in src/). It decodes two
characters at a time and stops, without error, at the first invalid pair or at
a dangling final nibble. -/
def hexDecodeLenient : List Char → Bytes
  | c1 :: c2 :: rest =>
    match hexVal c1, hexVal c2 with
    | some hi, some lo => (16 * hi + lo) :: hexDecodeLenient rest
    | _, _ => []
  | _ => []

/-- Lower-case hex character of a value below 16 (matches `Nat.digitChar` on that range). -/
def hexDigitChar (n : Nat) : Char := Nat.digitChar n

/-- Hex encoding of a byte string, two characters per byte. -/
def hexEncodeChars (bs : Bytes) : List Char :=
  (bs.map (fun b => [hexDigitChar (b / 16), hexDigitChar (b % 16)])).flatten

/-- Strict hex-pair parser used by the address model: fails on any invalid
character or odd length instead of truncating. -/
def hexPairsStrict : List Char → Option Bytes
  | [] => some []
  | c1 :: c2 :: rest =>
    match hexVal c1, hexVal c2 with
    | some hi, some lo => (hexPairsStrict rest).map (fun bs => (16 * hi + lo) :: bs)
    | _, _ => none
  | _ => none

/-- Error values raised by the modelled `algosdk` primitives. -/
inductive AlgosdkError
  | seedLength (got : Nat)
  | badAddress
  | badSignedTxn
  | malformedTxn
  deriving Repr, DecidableEq

/-- Message text attached to each modelled `algosdk` error. -/
def algosdkMessage : AlgosdkError → String
  | .seedLength got => "Seed length must be 32 bytes, got " ++ toString got
  | .badAddress => "address seems to be malformed"
  | .badSignedTxn => "cannot decode signed transaction"
  | .malformedTxn => "cannot decode transaction bytes"

/-- Modelled from the spec: a mnemonic is a checksum-protected word sequence that
bijectively encodes a 32-byte private seed (spec §3, glossary); the words
themselves are abstracted away and only the encoded seed is kept. -/
structure Mnemonic where
  seed : Bytes
  deriving Repr, DecidableEq

/-- Modelled from the spec: Ed25519 public-key derivation inside the primitive
library (nacl keypair-from-seed). The claims rely only on the expanded-key
layout `secretKey = seed ++ publicKey`, so the public key is modelled as an
unspecified total byte-preserving function of the seed. -/
def ed25519PublicKey (seed : Bytes) : Bytes :=
  seed.map (fun b => (b * 31 + 7) % 256)

/-- Checksum character of the modelled address encoding. -/
def checksumChar (pk : Bytes) : Char := hexDigitChar (pk.foldl (· + ·) 0 % 16)

/-- Modelled from the spec: `algosdk.encodeAddress` — a checksum-protected string
encoding of a 32-byte public key (spec §3, glossary). Modelled as the hex body
followed by one checksum character. -/
def encodeAddress (pk : Bytes) : String :=
  String.mk (hexEncodeChars pk ++ [checksumChar pk])

/-- Modelled from the spec: `algosdk.decodeAddress` — succeeds exactly on
well-formed checksum addresses and recovers the public key; any malformed
checksum, wrong length or invalid character fails. -/
def decodeAddress (address : String) : Except AlgosdkError Bytes :=
  let cs := address.data
  if cs.length = 65 then
    match hexPairsStrict (cs.take 64) with
    | some pk => if cs.drop 64 = [checksumChar pk] then .ok pk else .error .badAddress
    | none => .error .badAddress
  else .error .badAddress

/-- Modelled from the spec: `algosdk.secretKeyToMnemonic` takes the first 32
bytes of its argument as the seed and fails when fewer than 32 bytes are
available (the seed-length check of the ledger primitive). -/
def secretKeyToMnemonic (sk : Bytes) : Except AlgosdkError Mnemonic :=
  let seed := sk.take 32
  if seed.length = 32 then .ok ⟨seed⟩ else .error (.seedLength seed.length)

/-- Account record returned by the modelled `algosdk.mnemonicToSecretKey`. -/
structure SdkAccount where
  addr : String
  sk : Bytes
  deriving Repr, DecidableEq

/-- Modelled from the spec: `algosdk.mnemonicToSecretKey` decodes the mnemonic
back to its 32-byte seed, expands it to the 64-byte secret key
`seed ++ publicKey`, and encodes the address from the public key. -/
def mnemonicToSecretKey (m : Mnemonic) : Except AlgosdkError SdkAccount :=
  if m.seed.length = 32 then
    let pk := ed25519PublicKey m.seed
    .ok ⟨encodeAddress pk, m.seed ++ pk⟩
  else .error (.seedLength m.seed.length)

/-- Result record of the modelled `algosdk.signTransaction` (`txID` omitted). -/
structure SignedTxnResult where
  blob : Bytes
  deriving Repr, DecidableEq

/-- Modelled from the spec: `algosdk.signTransaction` fails on malformed
transaction bytes (modelled as the empty byte string) and otherwise produces a
signed-transaction blob embedding the signing public key, the second half of
the secret key. -/
def signTransaction (txn : Bytes) (sk : Bytes) : Except AlgosdkError SignedTxnResult :=
  if txn = [] then .error .malformedTxn
  else .ok ⟨130 :: 1 :: (sk.drop 32).length :: (sk.drop 32 ++ txn)⟩

/-- Signature block of a decoded signed transaction, carrying an optional
multi-signer list and an optional single signer, as read by
`verifyWeb3AuthSignature` (`web3authIntegration.ts:46`). -/
structure SigBlock where
  signers : Option (List Bytes)
  signer : Option Bytes
  deriving Repr, DecidableEq

/-- Decoded signed transaction: optional signature block plus the transaction body. -/
structure SignedTxnModel where
  sig : Option SigBlock
  txnBody : Bytes
  deriving Repr, DecidableEq

/-- Modelled from the spec: `algosdk.decodeSignedTransaction` — a tag-based
parser over the blob format of `signTransaction`; tag 0 carries no signature
block, tag 1 a single signer, tag 2 an empty multi-signer list, tag 3 a
one-element multi-signer list, and anything else fails. -/
def decodeSignedTransaction (bytes : Bytes) : Except AlgosdkError SignedTxnModel :=
  match bytes with
  | 130 :: 0 :: body => .ok ⟨none, body⟩
  | 130 :: 1 :: n :: rest =>
    if n ≤ rest.length then .ok ⟨some ⟨none, some (rest.take n)⟩, rest.drop n⟩
    else .error .badSignedTxn
  | 130 :: 2 :: body => .ok ⟨some ⟨some [], none⟩, body⟩
  | 130 :: 3 :: n :: rest =>
    if n ≤ rest.length then .ok ⟨some ⟨some [rest.take n], none⟩, rest.drop n⟩
    else .error .badSignedTxn
  | _ => .error .badSignedTxn

/-! Repository functions, embedded from `src/web3auth/algorandAdapter.ts` and
`src/web3auth/web3authIntegration.ts`. -/

/-- The account record returned by `getAlgorandAccount` (`algorandAdapter.ts:10`). -/
structure AlgorandAccountFromWeb3Auth where
  address : String
  mnemonic : Mnemonic
  secretKey : Bytes
  deriving Repr, DecidableEq

/-- Strips an optional leading `0x` marker (`algorandAdapter.ts:55`). -/
def stripHexMark (cs : List Char) : List Char :=
  if cs.take 2 = ['0', 'x'] then cs.drop 2 else cs

/-- Error message produced by the catch-all wrapper at `algorandAdapter.ts:78`. -/
def deriveFailMsg (cause : String) : String :=
  "Failed to derive Algorand account from Web3Auth: " ++ cause

/-- `getAlgorandAccount` (`algorandAdapter.ts:38`), taking the hex private key
string already retrieved from the provider: absent key material fails; the
`0x` marker is stripped; the string is hex-decoded by the lenient Node codec;
the first 32 bytes are taken; the seed is round-tripped through the mnemonic
primitives; any primitive error is wrapped by the catch block. -/
def getAlgorandAccount (privKey : String) : Except String AlgorandAccountFromWeb3Auth :=
  if privKey = "" then
    .error (deriveFailMsg "Failed to retrieve private key from Web3Auth provider")
  else
    let cleanHexKey := stripHexMark privKey.data
    let privateKeyBytes := hexDecodeLenient cleanHexKey
    let ed25519SecretKey := privateKeyBytes.take 32
    match secretKeyToMnemonic ed25519SecretKey with
    | .error e => .error (deriveFailMsg (algosdkMessage e))
    | .ok mnemonic =>
      match mnemonicToSecretKey mnemonic with
      | .error e => .error (deriveFailMsg (algosdkMessage e))
      | .ok accountFromMnemonic =>
        .ok ⟨accountFromMnemonic.addr, mnemonic, accountFromMnemonic.sk⟩

/-- The signing loop of the signer returned by `createAlgorandSigner`
(`algorandAdapter.ts:108`): sign each transaction in order, abort the whole
batch on the first failure with the wrapped cause message. -/
def signLoop (secretKey : Bytes) : List Bytes → Except String (List Bytes)
  | [] => .ok []
  | txn :: rest =>
    match signTransaction txn secretKey with
    | .ok signedTxn => (signLoop secretKey rest).map (fun out => signedTxn.blob :: out)
    | .error e => .error ("Failed to sign transaction: " ++ algosdkMessage e)

/-- `createAlgorandSigner` (`algorandAdapter.ts:108`): the returned signer maps a
batch of transaction byte strings to signed blobs via `signLoop`. -/
def createAlgorandSigner (secretKey : Bytes) (transactions : List Bytes) :
    Except String (List Bytes) :=
  signLoop secretKey transactions

/-- `isValidAlgorandAddress` (`algorandAdapter.ts:133`): false on the empty
string, otherwise true exactly when `decodeAddress` succeeds; never throws. -/
def isValidAlgorandAddress (address : String) : Bool :=
  if address = "" then false
  else
    match decodeAddress address with
    | .ok _ => true
    | .error _ => false

/-- `getPublicKeyFromSecretKey` (`algorandAdapter.ts:152`): fails unless the
secret key is 64 bytes, else returns its second half. -/
def getPublicKeyFromSecretKey (secretKey : Bytes) : Except String Bytes :=
  if secretKey.length ≠ 64 then
    .error ("Invalid secret key length: expected 64 bytes, got " ++ toString secretKey.length)
  else .ok (secretKey.drop 32)

/-- The signer extraction `decodedTxn.sig?.signers?.[0] ?? decodedTxn.sig?.signer`
(`web3authIntegration.ts:46`): first element of a non-empty multi-signer list
when present, otherwise the single-signer field. -/
def txnSignerOf (d : SignedTxnModel) : Option Bytes :=
  match d.sig with
  | none => none
  | some s =>
    match s.signers with
    | some (x :: _) => some x
    | _ => s.signer

/-- `verifyWeb3AuthSignature` (`web3authIntegration.ts:40`): decode the signed
transaction, extract the signer public key, decode the account address, and
compare byte for byte; every failure path yields false. -/
def verifyWeb3AuthSignature (signedTransaction : Bytes)
    (account : AlgorandAccountFromWeb3Auth) : Bool :=
  match decodeSignedTransaction signedTransaction with
  | .error _ => false
  | .ok decodedTxn =>
    match txnSignerOf decodedTxn with
    | none => false
    | some txnSigner =>
      match decodeAddress account.address with
      | .error _ => false
      | .ok publicKey => txnSigner == publicKey

/-! Sample values used by concrete witnesses. -/

/-- Sample 32-byte zero seed. -/
def zeroSeed : Bytes := List.replicate 32 0

/-- Hex string of the sample zero seed: 64 zero characters. -/
def zeroKeyHex : String := String.mk (List.replicate 64 '0')

/-- Account derived from the sample zero seed. -/
def zeroAccount : AlgorandAccountFromWeb3Auth :=
  ⟨encodeAddress (ed25519PublicKey zeroSeed), ⟨zeroSeed⟩, zeroSeed ++ ed25519PublicKey zeroSeed⟩

/-! Basic lemmas about the hex codecs. -/

theorem hexVal_lt16 {c : Char} {v : Nat} (h : hexVal c = some v) : v < 16 := by
  unfold hexVal at h
  split_ifs at h <;> simp_all <;> omega

theorem hexVal_digitChar : ∀ n, n < 16 → hexVal (hexDigitChar n) = some n := by decide

theorem hexVal_x : hexVal 'x' = none := by decide

theorem hexDecodeLenient_step (c1 c2 : Char) (rest : List Char) :
    hexDecodeLenient (c1 :: c2 :: rest) =
      match hexVal c1, hexVal c2 with
      | some hi, some lo => (16 * hi + lo) :: hexDecodeLenient rest
      | _, _ => [] := rfl

theorem hexDecodeLenient_cons {c1 c2 : Char} {hi lo : Nat} (h1 : hexVal c1 = some hi)
    (h2 : hexVal c2 = some lo) (rest : List Char) :
    hexDecodeLenient (c1 :: c2 :: rest) = (16 * hi + lo) :: hexDecodeLenient rest := by
  rw [hexDecodeLenient_step, h1, h2]

theorem hexDecodeLenient_stop {c1 c2 : Char}
    (h : hexVal c1 = none ∨ hexVal c2 = none) (rest : List Char) :
    hexDecodeLenient (c1 :: c2 :: rest) = [] := by
  rw [hexDecodeLenient_step]
  rcases h with h | h
  · rw [h]
  · rw [h]
    cases hexVal c1 <;> rfl

theorem hexDecodeLenient_lt256 : ∀ (cs : List Char), ∀ b ∈ hexDecodeLenient cs, b < 256
  | [] => by simp [hexDecodeLenient]
  | [_] => by simp [hexDecodeLenient]
  | c1 :: c2 :: rest => by
    intro b hb
    cases h1 : hexVal c1 with
    | none => rw [hexDecodeLenient_stop (Or.inl h1)] at hb; simp at hb
    | some hi =>
      cases h2 : hexVal c2 with
      | none => rw [hexDecodeLenient_stop (Or.inr h2)] at hb; simp at hb
      | some lo =>
        rw [hexDecodeLenient_cons h1 h2, List.mem_cons] at hb
        rcases hb with rfl | hb
        · have hv1 := hexVal_lt16 h1
          have hv2 := hexVal_lt16 h2
          omega
        · exact hexDecodeLenient_lt256 rest b hb

theorem two_mul_length_hexDecodeLenient_le : ∀ (cs : List Char),
    2 * (hexDecodeLenient cs).length ≤ cs.length
  | [] => by simp [hexDecodeLenient]
  | [_] => by simp [hexDecodeLenient]
  | c1 :: c2 :: rest => by
    cases h1 : hexVal c1 with
    | none => rw [hexDecodeLenient_stop (Or.inl h1)]; simp
    | some hi =>
      cases h2 : hexVal c2 with
      | none => rw [hexDecodeLenient_stop (Or.inr h2)]; simp
      | some lo =>
        rw [hexDecodeLenient_cons h1 h2]
        have := two_mul_length_hexDecodeLenient_le rest
        simp only [List.length_cons]
        omega

theorem hexEncodeChars_cons (b : Nat) (bs : Bytes) :
    hexEncodeChars (b :: bs) =
      hexDigitChar (b / 16) :: hexDigitChar (b % 16) :: hexEncodeChars bs := by
  simp [hexEncodeChars]

theorem hexEncodeChars_length : ∀ (bs : Bytes), (hexEncodeChars bs).length = 2 * bs.length
  | [] => rfl
  | b :: bs => by
    rw [hexEncodeChars_cons]
    simp only [List.length_cons, hexEncodeChars_length bs]
    omega

theorem hexDecodeLenient_encode : ∀ (bs : Bytes), (∀ b ∈ bs, b < 256) →
    hexDecodeLenient (hexEncodeChars bs) = bs
  | [], _ => rfl
  | b :: bs, h => by
    have hb : b < 256 := h b (by simp)
    have h1 : hexVal (hexDigitChar (b / 16)) = some (b / 16) := hexVal_digitChar _ (by omega)
    have h2 : hexVal (hexDigitChar (b % 16)) = some (b % 16) :=
      hexVal_digitChar _ (Nat.mod_lt _ (by omega))
    rw [hexEncodeChars_cons, hexDecodeLenient_cons h1 h2,
      hexDecodeLenient_encode bs (fun x hx => h x (by simp [hx]))]
    congr 1
    omega

theorem hexPairsStrict_step (c1 c2 : Char) (rest : List Char) :
    hexPairsStrict (c1 :: c2 :: rest) =
      match hexVal c1, hexVal c2 with
      | some hi, some lo => (hexPairsStrict rest).map (fun bs => (16 * hi + lo) :: bs)
      | _, _ => none := rfl

theorem hexPairsStrict_encode : ∀ (bs : Bytes), (∀ b ∈ bs, b < 256) →
    hexPairsStrict (hexEncodeChars bs) = some bs
  | [], _ => rfl
  | b :: bs, h => by
    have hb : b < 256 := h b (by simp)
    have h1 : hexVal (hexDigitChar (b / 16)) = some (b / 16) := hexVal_digitChar _ (by omega)
    have h2 : hexVal (hexDigitChar (b % 16)) = some (b % 16) :=
      hexVal_digitChar _ (Nat.mod_lt _ (by omega))
    have hdm : 16 * (b / 16) + b % 16 = b := by omega
    rw [hexEncodeChars_cons, hexPairsStrict_step, h1, h2,
      hexPairsStrict_encode bs (fun x hx => h x (by simp [hx]))]
    simp [hdm]

theorem hexDecodeLenient_nil : hexDecodeLenient [] = [] := rfl

theorem hexDecodeLenient_one (c : Char) : hexDecodeLenient [c] = [] := rfl

theorem stripHexMark_of_second_ne {c1 c2 : Char} (h : c2 ≠ 'x') (rest : List Char) :
    stripHexMark (c1 :: c2 :: rest) = c1 :: c2 :: rest := by
  unfold stripHexMark
  rw [if_neg]
  intro hc
  simp only [List.take_succ_cons, List.take_zero, List.cons.injEq, and_true] at hc
  exact h hc.2

theorem decodeAddress_encodeAddress {pk : Bytes} (hlen : pk.length = 32)
    (hlt : ∀ b ∈ pk, b < 256) : decodeAddress (encodeAddress pk) = .ok pk := by
  have hbody : (hexEncodeChars pk).length = 64 := by rw [hexEncodeChars_length, hlen]
  have hfull : (hexEncodeChars pk ++ [checksumChar pk]).length = 65 := by
    simp [hbody]
  have htake : (hexEncodeChars pk ++ [checksumChar pk]).take 64 = hexEncodeChars pk := by
    rw [← hbody, List.take_left]
  have hdrop : (hexEncodeChars pk ++ [checksumChar pk]).drop 64 = [checksumChar pk] := by
    rw [← hbody, List.drop_left]
  unfold decodeAddress encodeAddress
  simp only [hfull, htake, hdrop, if_pos, hexPairsStrict_encode pk hlt]

theorem ed25519PublicKey_length (seed : Bytes) :
    (ed25519PublicKey seed).length = seed.length := by
  simp [ed25519PublicKey]

theorem ed25519PublicKey_lt256 (seed : Bytes) : ∀ b ∈ ed25519PublicKey seed, b < 256 := by
  intro b hb
  simp only [ed25519PublicKey, List.mem_map] at hb
  rcases hb with ⟨x, _, rfl⟩
  exact Nat.mod_lt _ (by omega)

theorem hexDecodeLenient_take : ∀ (k : Nat) (cs : List Char),
    k ≤ (hexDecodeLenient cs).length →
    hexDecodeLenient (cs.take (2 * k)) = (hexDecodeLenient cs).take k
  | 0, cs, _ => by simp [hexDecodeLenient]
  | k + 1, [], h => by simp [hexDecodeLenient] at h
  | k + 1, [c], h => by simp [hexDecodeLenient] at h
  | k + 1, c1 :: c2 :: rest, h => by
    cases h1 : hexVal c1 with
    | none => rw [hexDecodeLenient_stop (Or.inl h1)] at h; simp at h
    | some hi =>
      cases h2 : hexVal c2 with
      | none => rw [hexDecodeLenient_stop (Or.inr h2)] at h; simp at h
      | some lo =>
        rw [hexDecodeLenient_cons h1 h2] at h
        have hk : k ≤ (hexDecodeLenient rest).length := by
          simp only [List.length_cons] at h; omega
        have harith : 2 * (k + 1) = (2 * k) + 1 + 1 := by ring
        rw [hexDecodeLenient_cons h1 h2, harith, List.take_succ_cons, List.take_succ_cons,
          hexDecodeLenient_cons h1 h2, List.take_succ_cons,
          hexDecodeLenient_take k rest hk]

/-! Characterizations of `getAlgorandAccount`. -/

theorem getAlgorandAccount_ok (s : String) (hne : s ≠ "")
    (hlen : 32 ≤ (hexDecodeLenient (stripHexMark s.data)).length) :
    getAlgorandAccount s =
      .ok ⟨encodeAddress (ed25519PublicKey ((hexDecodeLenient (stripHexMark s.data)).take 32)),
           ⟨(hexDecodeLenient (stripHexMark s.data)).take 32⟩,
           (hexDecodeLenient (stripHexMark s.data)).take 32 ++
             ed25519PublicKey ((hexDecodeLenient (stripHexMark s.data)).take 32)⟩ := by
  have hseed : ((hexDecodeLenient (stripHexMark s.data)).take 32).length = 32 := by
    simp only [List.length_take]
    omega
  unfold getAlgorandAccount secretKeyToMnemonic mnemonicToSecretKey
  rw [if_neg hne]
  simp only [List.take_take, Nat.min_self, hseed, if_pos]

theorem getAlgorandAccount_short (s : String) (hne : s ≠ "")
    (hlen : (hexDecodeLenient (stripHexMark s.data)).length < 32) :
    getAlgorandAccount s =
      .error (deriveFailMsg (algosdkMessage
        (.seedLength (hexDecodeLenient (stripHexMark s.data)).length))) := by
  have htake : (hexDecodeLenient (stripHexMark s.data)).take 32 =
      hexDecodeLenient (stripHexMark s.data) :=
    List.take_of_length_le (by omega)
  have hlt : ¬ ((hexDecodeLenient (stripHexMark s.data)).take 32).length = 32 := by
    rw [htake]; omega
  have hne32 : ¬ (hexDecodeLenient (stripHexMark s.data)).length = 32 := by omega
  unfold getAlgorandAccount secretKeyToMnemonic
  rw [if_neg hne]
  simp only [List.take_take, Nat.min_self, if_neg hlt, htake, if_neg hne32]

theorem getAlgorandAccount_shape {s : String} {A : AlgorandAccountFromWeb3Auth}
    (h : getAlgorandAccount s = .ok A) :
    ∃ seed : Bytes, seed.length = 32 ∧ (∀ b ∈ seed, b < 256) ∧
      A = ⟨encodeAddress (ed25519PublicKey seed), ⟨seed⟩, seed ++ ed25519PublicKey seed⟩ := by
  by_cases hne : s = ""
  · rw [hne] at h
    simp [getAlgorandAccount] at h
  · by_cases hlen : 32 ≤ (hexDecodeLenient (stripHexMark s.data)).length
    · rw [getAlgorandAccount_ok s hne hlen] at h
      refine ⟨(hexDecodeLenient (stripHexMark s.data)).take 32, ?_, ?_, ?_⟩
      · simp only [List.length_take]; omega
      · intro b hb
        exact hexDecodeLenient_lt256 _ b (List.mem_of_mem_take hb)
      · exact (Except.ok.inj h).symm
    · rw [getAlgorandAccount_short s hne (by omega)] at h
      simp at h

/-- Facts about any adapter-produced account: 64-byte secret key whose second
half is the public key, and an address that decodes back to that half. -/
theorem account_facts {s : String} {A : AlgorandAccountFromWeb3Auth}
    (h : getAlgorandAccount s = .ok A) :
    A.secretKey.length = 64 ∧
      A.secretKey.drop 32 = ed25519PublicKey A.mnemonic.seed ∧
      decodeAddress A.address = .ok (A.secretKey.drop 32) := by
  rcases getAlgorandAccount_shape h with ⟨seed, hlen, hlt, rfl⟩
  have hpklen : (ed25519PublicKey seed).length = 32 := by
    rw [ed25519PublicKey_length, hlen]
  have hdrop : (seed ++ ed25519PublicKey seed).drop 32 = ed25519PublicKey seed := by
    rw [← hlen, List.drop_left]
  refine ⟨?_, ?_, ?_⟩
  · simp [hlen, hpklen]
  · exact hdrop
  · rw [hdrop]
    exact decodeAddress_encodeAddress hpklen (ed25519PublicKey_lt256 seed)

/-! Claim theorems. -/

/-- C2: for every non-empty hex input whose decoded byte string is shorter than
32 bytes (for example `"abcd"`, 2 bytes), `getAlgorandAccount` fails with the
seed-length error (the `KeyLengthError` of the spec, raised by the
32-byte check and wrapped by the adapter) and does not pad the key. -/
theorem C2_short_key_fails (s : String) (hne : s ≠ "")
    (hshort : (hexDecodeLenient (stripHexMark s.data)).length < 32) :
    getAlgorandAccount s =
      .error (deriveFailMsg (algosdkMessage
        (.seedLength (hexDecodeLenient (stripHexMark s.data)).length))) :=
  getAlgorandAccount_short s hne hshort

/-- Witness for C2 at the example given in the spec: input `"abcd"` decodes to 2 bytes
and fails with the seed-length error for 2 bytes. -/
theorem C2_short_key_fails_witness :
    ("abcd" : String) ≠ "" ∧
      (hexDecodeLenient (stripHexMark ("abcd" : String).data)).length = 2 ∧
      getAlgorandAccount "abcd" =
        .error (deriveFailMsg (algosdkMessage (.seedLength
          (hexDecodeLenient (stripHexMark ("abcd" : String).data)).length))) :=
  ⟨by decide, by decide, C2_short_key_fails "abcd" (by decide) (by decide)⟩

/-- C5: every account returned by `getAlgorandAccount` has a 64-byte secret key,
`getPublicKeyFromSecretKey` returns its second half, and decoding the address
yields exactly that second half. -/
theorem C5_account_invariants (s : String) (A : AlgorandAccountFromWeb3Auth)
    (h : getAlgorandAccount s = .ok A) :
    A.secretKey.length = 64 ∧
      getPublicKeyFromSecretKey A.secretKey = .ok (A.secretKey.drop 32) ∧
      decodeAddress A.address = .ok (A.secretKey.drop 32) := by
  obtain ⟨h64, _, haddr⟩ := account_facts h
  refine ⟨h64, ?_, haddr⟩
  unfold getPublicKeyFromSecretKey
  rw [if_neg (by omega)]

/-- Witness for C5 at the all-zero 32-byte seed. -/
theorem C5_account_invariants_witness :
    getAlgorandAccount zeroKeyHex = .ok zeroAccount ∧
      (zeroAccount.secretKey.length = 64 ∧
        getPublicKeyFromSecretKey zeroAccount.secretKey = .ok (zeroAccount.secretKey.drop 32) ∧
        decodeAddress zeroAccount.address = .ok (zeroAccount.secretKey.drop 32)) :=
  ⟨by decide, C5_account_invariants zeroKeyHex zeroAccount (by decide)⟩

/-- C8: `isValidAlgorandAddress` never throws and returns true exactly when the
address decodes under the checksum primitive; in particular it returns false on
the empty string, on garbage, and on a valid address whose trailing character
was corrupted, while the uncorrupted address validates. -/
theorem C8_validator_safety :
    (∀ a : String, isValidAlgorandAddress a = true ↔ ∃ pk, decodeAddress a = .ok pk) ∧
      isValidAlgorandAddress "" = false ∧
      isValidAlgorandAddress "not.a$valid@address" = false ∧
      isValidAlgorandAddress (encodeAddress (ed25519PublicKey zeroSeed)) = true ∧
      isValidAlgorandAddress
        (String.mk ((encodeAddress (ed25519PublicKey zeroSeed)).data.dropLast ++ ['1'])) =
        false := by
  refine ⟨?_, by decide, by decide, by decide, by decide⟩
  intro a
  unfold isValidAlgorandAddress
  by_cases ha : a = ""
  · subst ha
    rw [if_pos rfl]
    constructor
    · intro h; exact absurd h (by decide)
    · rintro ⟨pk, hpk⟩
      rw [show decodeAddress "" = Except.error AlgosdkError.badAddress from rfl] at hpk
      cases hpk
  · rw [if_neg ha]
    cases hd : decodeAddress a with
    | ok pk => simp [hd]
    | error e => simp [hd]

/-- C10: any byte string that decodes as a signed transaction but carries no
signer (no single-signer field and no non-empty multi-signer list) makes
`verifyWeb3AuthSignature` return false for every account, without throwing. -/
theorem C10_no_signer (b : Bytes) (st : SignedTxnModel) (A : AlgorandAccountFromWeb3Auth)
    (hdec : decodeSignedTransaction b = .ok st) (hsig : txnSignerOf st = none) :
    verifyWeb3AuthSignature b A = false := by
  simp only [verifyWeb3AuthSignature, hdec, hsig]

/-- Witness for C10: bytes decoding to an empty multi-signer list and no single
signer verify as false against a sample account. -/
theorem C10_no_signer_witness :
    decodeSignedTransaction [130, 2, 9] =
        .ok ⟨some ⟨some [], none⟩, [9]⟩ ∧
      txnSignerOf ⟨some ⟨some [], none⟩, [9]⟩ = none ∧
      verifyWeb3AuthSignature [130, 2, 9] zeroAccount = false :=
  ⟨by decide, by decide,
    C10_no_signer [130, 2, 9] ⟨some ⟨some [], none⟩, [9]⟩ zeroAccount (by decide) (by decide)⟩

theorem signTransaction_ok {t : Bytes} (sk : Bytes) (ht : t ≠ []) :
    signTransaction t sk = .ok ⟨130 :: 1 :: (sk.drop 32).length :: (sk.drop 32 ++ t)⟩ := by
  unfold signTransaction
  rw [if_neg ht]

theorem decodeSignedTransaction_tag1 (n : Nat) (rest : Bytes) :
    decodeSignedTransaction (130 :: 1 :: n :: rest) =
      if n ≤ rest.length then .ok ⟨some ⟨none, some (rest.take n)⟩, rest.drop n⟩
      else .error .badSignedTxn := rfl

/-- C1: for every adapter-produced account, a transaction signed with its secret
key verifies as true against it; in general `verifyWeb3AuthSignature` returns
true exactly when the signer public key embedded in the signed transaction is
byte-for-byte the public key decoded from the address of the account. -/
theorem C1_sign_verify (s : String) (A : AlgorandAccountFromWeb3Auth)
    (hA : getAlgorandAccount s = .ok A) :
    (∀ t r, signTransaction t A.secretKey = .ok r →
        verifyWeb3AuthSignature r.blob A = true) ∧
      ∀ b, verifyWeb3AuthSignature b A = true ↔
        ∃ pk, decodeAddress A.address = .ok pk ∧
          (decodeSignedTransaction b).toOption.bind txnSignerOf = some pk := by
  obtain ⟨h64, _, haddr⟩ := account_facts hA
  have hpklen : (A.secretKey.drop 32).length = 32 := by
    rw [List.length_drop, h64]
  constructor
  · intro t r hr
    by_cases ht : t = []
    · subst ht
      rw [show signTransaction [] A.secretKey = .error .malformedTxn from rfl] at hr
      cases hr
    · rw [signTransaction_ok A.secretKey ht] at hr
      obtain rfl := Except.ok.inj hr
      simp only [verifyWeb3AuthSignature, decodeSignedTransaction_tag1,
        if_pos (by simp : (A.secretKey.drop 32).length ≤ (A.secretKey.drop 32 ++ t).length),
        List.take_left, haddr]
      exact beq_self_eq_true _
  · intro b
    unfold verifyWeb3AuthSignature
    cases hd : decodeSignedTransaction b with
    | error e => simp [Except.toOption]
    | ok st =>
      cases hs : txnSignerOf st with
      | none => simp [hs, Except.toOption]
      | some sgnr => simp [hs, haddr, Except.toOption, beq_iff_eq]

/-- Witness for C1: the account of the all-zero key signs the transaction bytes
`[5]` and the result verifies as true against that same account. -/
theorem C1_sign_verify_witness :
    getAlgorandAccount zeroKeyHex = .ok zeroAccount ∧
      signTransaction [5] zeroAccount.secretKey =
        .ok ⟨130 :: 1 :: 32 :: (ed25519PublicKey zeroSeed ++ [5])⟩ ∧
      verifyWeb3AuthSignature (130 :: 1 :: 32 :: (ed25519PublicKey zeroSeed ++ [5]))
        zeroAccount = true :=
  ⟨by decide, by decide,
    (C1_sign_verify zeroKeyHex zeroAccount (by decide)).1 [5]
      ⟨130 :: 1 :: 32 :: (ed25519PublicKey zeroSeed ++ [5])⟩ (by decide)⟩

/-- C6: for every 32-byte seed given as hex input, `getAlgorandAccount` produces
a mnemonic that decodes through the mnemonic-to-secret-key primitive of the ledger
to a secret key whose first 32 bytes are exactly the seed. -/
theorem C6_mnemonic_roundtrip (S : Bytes) (hlen : S.length = 32) (hlt : ∀ b ∈ S, b < 256) :
    ∃ A sdk, getAlgorandAccount (String.mk (hexEncodeChars S)) = .ok A ∧
      A.mnemonic = ⟨S⟩ ∧
      mnemonicToSecretKey A.mnemonic = .ok sdk ∧
      sdk.sk.take 32 = S := by
  obtain ⟨b, bs, rfl⟩ : ∃ b bs, S = b :: bs := by
    cases S with
    | nil => simp at hlen
    | cons b bs => exact ⟨b, bs, rfl⟩
  have hb : b < 256 := hlt b (by simp)
  have hx : hexVal (hexDigitChar (b % 16)) = some (b % 16) :=
    hexVal_digitChar _ (Nat.mod_lt _ (by omega))
  have hc2 : hexDigitChar (b % 16) ≠ 'x' := by
    intro h; rw [h, hexVal_x] at hx; cases hx
  have hdata : (String.mk (hexEncodeChars (b :: bs))).data = hexEncodeChars (b :: bs) := rfl
  have hstrip : stripHexMark (hexEncodeChars (b :: bs)) = hexEncodeChars (b :: bs) := by
    rw [hexEncodeChars_cons]
    exact stripHexMark_of_second_ne hc2 _
  have hne : String.mk (hexEncodeChars (b :: bs)) ≠ "" := by
    intro h
    have hdat : hexEncodeChars (b :: bs) = [] := congrArg String.data h
    rw [hexEncodeChars_cons] at hdat
    cases hdat
  have hdec : hexDecodeLenient (stripHexMark (String.mk (hexEncodeChars (b :: bs))).data) =
      b :: bs := by
    rw [hdata, hstrip, hexDecodeLenient_encode _ hlt]
  have hA := getAlgorandAccount_ok _ hne (by rw [hdec, hlen])
  rw [hdec] at hA
  have htake : (b :: bs).take 32 = b :: bs := List.take_of_length_le (by omega)
  rw [htake] at hA
  refine ⟨_, ⟨encodeAddress (ed25519PublicKey (b :: bs)),
    (b :: bs) ++ ed25519PublicKey (b :: bs)⟩, hA, rfl, ?_, ?_⟩
  · simp [mnemonicToSecretKey, hlen]
  · rw [← hlen, List.take_left]

/-- Witness for C6 at the all-zero 32-byte seed. -/
theorem C6_mnemonic_roundtrip_witness :
    zeroSeed.length = 32 ∧ (∀ b ∈ zeroSeed, b < 256) ∧
      (∃ A sdk, getAlgorandAccount (String.mk (hexEncodeChars zeroSeed)) = .ok A ∧
        A.mnemonic = ⟨zeroSeed⟩ ∧
        mnemonicToSecretKey A.mnemonic = .ok sdk ∧
        sdk.sk.take 32 = zeroSeed) :=
  ⟨by decide, by decide, C6_mnemonic_roundtrip zeroSeed (by decide) (by decide)⟩

theorem signLoop_cons (sk t : Bytes) (rest : List Bytes) :
    signLoop sk (t :: rest) =
      match signTransaction t sk with
      | .ok signedTxn => (signLoop sk rest).map (fun out => signedTxn.blob :: out)
      | .error e => .error ("Failed to sign transaction: " ++ algosdkMessage e) := rfl

/-- C7: when every transaction in the batch signs successfully, the signer
returns a list of the same length whose i-th element is the signed blob of the
i-th input transaction, in input order. -/
theorem C7_batch_order (sk : Bytes) (txns : List Bytes) (h : ∀ t ∈ txns, t ≠ []) :
    ∃ out, createAlgorandSigner sk txns = .ok out ∧ out.length = txns.length ∧
      ∀ i, i < txns.length →
        ∃ r, signTransaction (txns.getD i []) sk = .ok r ∧ out.getD i [] = r.blob := by
  induction txns with
  | nil =>
    refine ⟨[], rfl, rfl, ?_⟩
    intro i hi
    simp at hi
  | cons t rest ih =>
    have ht : t ≠ [] := h t (by simp)
    have hsign := signTransaction_ok sk ht
    obtain ⟨out, hout, hlen, hidx⟩ := ih (fun x hx => h x (by simp [hx]))
    have hout' : signLoop sk rest = Except.ok out := hout
    refine ⟨(130 :: 1 :: (sk.drop 32).length :: (sk.drop 32 ++ t)) :: out, ?_, by simp [hlen], ?_⟩
    · show signLoop sk (t :: rest) = _
      rw [signLoop_cons, hsign, hout']
      rfl
    · intro i hi
      cases i with
      | zero => exact ⟨_, hsign, rfl⟩
      | succ j =>
        simp only [List.getD_cons_succ]
        exact hidx j (by simpa using hi)

/-- Witness for C7 on a two-transaction batch. -/
theorem C7_batch_order_witness :
    (∀ t ∈ [[1], [2]], t ≠ ([] : Bytes)) ∧
      ∃ out, createAlgorandSigner (zeroSeed ++ ed25519PublicKey zeroSeed) [[1], [2]] = .ok out ∧
        out.length = ([[1], [2]] : List Bytes).length ∧
        ∀ i, i < ([[1], [2]] : List Bytes).length →
          ∃ r, signTransaction (([[1], [2]] : List Bytes).getD i [])
              (zeroSeed ++ ed25519PublicKey zeroSeed) = .ok r ∧
            out.getD i [] = r.blob :=
  ⟨by decide, C7_batch_order (zeroSeed ++ ed25519PublicKey zeroSeed) [[1], [2]] (by decide)⟩

/-- C3 counterexample: an input of 65 hex characters has odd length, yet
`getAlgorandAccount` succeeds instead of failing with a `DecodeError` at the
hex-decoding step — the Node hex codec silently drops the dangling nibble. -/
theorem C3_counterexample_odd_length_succeeds :
    (stripHexMark (String.mk (List.replicate 65 'a')).data).length % 2 = 1 ∧
      (getAlgorandAccount (String.mk (List.replicate 65 'a'))).isOk = true := by
  constructor
  · decide
  · decide

/-- C3 amended: on a non-empty input whose cleaned form has odd length or a
non-hex character, `getAlgorandAccount` never fails at the hex-decoding step;
decoding truncates silently, and the call succeeds exactly when at least 32
bytes were decoded (otherwise it fails with the seed-length error). -/
theorem C3_amended_no_decode_error (s : String) (hne : s ≠ "")
    (hbad : (stripHexMark s.data).length % 2 = 1 ∨ ∃ c ∈ stripHexMark s.data, hexVal c = none) :
    (∃ A, getAlgorandAccount s = .ok A) ↔
      32 ≤ (hexDecodeLenient (stripHexMark s.data)).length := by
  constructor
  · rintro ⟨A, hA⟩
    by_contra hlt
    rw [getAlgorandAccount_short s hne (by omega)] at hA
    cases hA
  · intro hge
    exact ⟨_, getAlgorandAccount_ok s hne hge⟩

/-- Witness for the amended C3 at the odd-length input of 65 `a` characters,
which decodes to exactly 32 bytes and therefore succeeds. -/
theorem C3_amended_witness :
    String.mk (List.replicate 65 'a') ≠ "" ∧
      (stripHexMark (String.mk (List.replicate 65 'a')).data).length % 2 = 1 ∧
      ((∃ A, getAlgorandAccount (String.mk (List.replicate 65 'a')) = .ok A) ↔
        32 ≤ (hexDecodeLenient
          (stripHexMark (String.mk (List.replicate 65 'a')).data)).length) :=
  ⟨by decide, by decide,
    C3_amended_no_decode_error (String.mk (List.replicate 65 'a')) (by decide)
      (Or.inl (by decide))⟩

/-- C4 counterexample: batches failing at index 0 and at index 1 produce the
very same error value, so the error raised by the signer cannot carry the
failing index; the message carries only the underlying cause. -/
theorem C4_counterexample_no_index :
    createAlgorandSigner (zeroSeed ++ ed25519PublicKey zeroSeed) [[], [1]] =
        .error ("Failed to sign transaction: " ++ algosdkMessage .malformedTxn) ∧
      createAlgorandSigner (zeroSeed ++ ed25519PublicKey zeroSeed) [[1], []] =
        .error ("Failed to sign transaction: " ++ algosdkMessage .malformedTxn) ∧
      createAlgorandSigner (zeroSeed ++ ed25519PublicKey zeroSeed) [[], [1]] =
        createAlgorandSigner (zeroSeed ++ ed25519PublicKey zeroSeed) [[1], []] := by
  refine ⟨by decide, by decide, by decide⟩

/-- C4 amended: a batch containing a malformed transaction fails as a whole
with the signing error carrying the underlying cause (but not the index), and
no partial list of signed transactions is returned. -/
theorem C4_batch_abort (sk : Bytes) (pre post : List Bytes) (hpre : ∀ t ∈ pre, t ≠ []) :
    createAlgorandSigner sk (pre ++ [] :: post) =
      .error ("Failed to sign transaction: " ++ algosdkMessage .malformedTxn) := by
  induction pre with
  | nil =>
    show signLoop sk ([] :: post) = _
    rw [signLoop_cons]
    rfl
  | cons t rest ih =>
    have ht : t ≠ [] := hpre t (by simp)
    have hrec : signLoop sk (rest ++ [] :: post) =
        Except.error ("Failed to sign transaction: " ++ algosdkMessage .malformedTxn) :=
      ih (fun x hx => hpre x (by simp [hx]))
    show signLoop sk (t :: (rest ++ [] :: post)) = _
    rw [signLoop_cons, signTransaction_ok sk ht, hrec]
    rfl

/-- Witness for the amended C4 with the malformed transaction at index 1. -/
theorem C4_batch_abort_witness :
    (∀ t ∈ [[1]], t ≠ ([] : Bytes)) ∧
      createAlgorandSigner (zeroSeed ++ ed25519PublicKey zeroSeed) ([[1]] ++ [] :: [[2]]) =
        .error ("Failed to sign transaction: " ++ algosdkMessage .malformedTxn) :=
  ⟨by decide, C4_batch_abort (zeroSeed ++ ed25519PublicKey zeroSeed) [[1]] [[2]] (by decide)⟩

/-- C9: whenever the cleaned input decodes to more than 32 bytes, the adapter
silently truncates: the call succeeds and returns the same account as the
input consisting of only the first 64 hex characters. -/
theorem C9_truncation (s : String)
    (hlen : 32 < (hexDecodeLenient (stripHexMark s.data)).length) :
    ∃ A, getAlgorandAccount s = .ok A ∧
      getAlgorandAccount (String.mk ((stripHexMark s.data).take 64)) = .ok A := by
  have hne : s ≠ "" := by
    intro h
    rw [h] at hlen
    revert hlen
    decide
  have hA := getAlgorandAccount_ok s hne (le_of_lt hlen)
  obtain ⟨c1, c2, rest, hcs⟩ : ∃ c1 c2 rest, stripHexMark s.data = c1 :: c2 :: rest := by
    cases hm : stripHexMark s.data with
    | nil => rw [hm, hexDecodeLenient_nil] at hlen; simp at hlen
    | cons d1 tl =>
      cases tl with
      | nil => rw [hm, hexDecodeLenient_one] at hlen; simp at hlen
      | cons d2 tl2 => exact ⟨d1, d2, tl2, rfl⟩
  have h2 : ∃ lo, hexVal c2 = some lo := by
    cases h2' : hexVal c2 with
    | none =>
      rw [hcs, hexDecodeLenient_stop (Or.inr h2')] at hlen
      simp at hlen
    | some lo => exact ⟨lo, rfl⟩
  have hc2x : c2 ≠ 'x' := by
    obtain ⟨lo, h2⟩ := h2
    intro hx
    rw [hx, hexVal_x] at h2
    cases h2
  have htake64 : (c1 :: c2 :: rest).take 64 = c1 :: c2 :: rest.take 62 := rfl
  have hstrip : stripHexMark ((stripHexMark s.data).take 64) = (stripHexMark s.data).take 64 := by
    rw [hcs, htake64]
    exact stripHexMark_of_second_ne hc2x _
  have htne : String.mk ((stripHexMark s.data).take 64) ≠ "" := by
    intro h
    have hdat : (stripHexMark s.data).take 64 = [] := congrArg String.data h
    rw [hcs, htake64] at hdat
    cases hdat
  have hdec : hexDecodeLenient
      (stripHexMark (String.mk ((stripHexMark s.data).take 64)).data) =
      (hexDecodeLenient (stripHexMark s.data)).take 32 := by
    show hexDecodeLenient (stripHexMark ((stripHexMark s.data).take 64)) = _
    rw [hstrip]
    have h232 : (2 : Nat) * 32 = 64 := by norm_num
    have := hexDecodeLenient_take 32 (stripHexMark s.data) (by omega)
    rw [h232] at this
    exact this
  have hlen2 : 32 ≤ (hexDecodeLenient
      (stripHexMark (String.mk ((stripHexMark s.data).take 64)).data)).length := by
    rw [hdec]
    simp only [List.length_take]
    omega
  have hB := getAlgorandAccount_ok _ htne hlen2
  rw [hdec, List.take_take, Nat.min_self] at hB
  exact ⟨_, hA, hB⟩

/-- Witness for C9 at 66 `a` characters, which decode to 33 bytes. -/
theorem C9_truncation_witness :
    32 < (hexDecodeLenient
        (stripHexMark (String.mk (List.replicate 66 'a')).data)).length ∧
      ∃ A, getAlgorandAccount (String.mk (List.replicate 66 'a')) = .ok A ∧
        getAlgorandAccount (String.mk
          ((stripHexMark (String.mk (List.replicate 66 'a')).data).take 64)) = .ok A :=
  ⟨by decide, C9_truncation (String.mk (List.replicate 66 'a')) (by decide)⟩

end UnifiedAlgorandWallet
